import Mathlib

/-!
Verification of the todo-backend record store
(`src/todo_backend/src/lib.rs`).

The store is three pieces of thread-local state: `TODOSTATE : HashMap<u64, Todo>`,
`TODOORDER : Vec<u64>` and `ID : Cell<u64>`.  They are embedded here as one
explicit state record that every operation threads through.

Modelling decisions:
* `HashMap<u64, Todo>` is embedded as an association list whose keys are unique
  in every reachable state; `storeGet` / `storeInsert` / `storeRemove` mirror
  `HashMap::get` / `insert` / `remove` (insert overwrites in place, remove
  deletes the entry of the key when present).
* `u64` values are embedded as `Nat`.  `page.saturating_sub(1)` is exactly
  truncated `Nat` subtraction.  Overflow of the 64-bit counter and of the
  pagination arithmetic (debug builds panic, release builds wrap) is not
  modelled: every claim is settled at values far below `2^64`, where the two
  semantics agree literally.
* Rust slice indexing `order[start..end]` panics when `start > end`; since
  `get_todos` contains that indexing, it is embedded as an `Option`-valued
  function and `none` models the panic.  All other fallible operations return
  `Except String _` with the exact error strings of the source.
-/

/-- The `Todo` record: `name`, `description`, `is_completed`. -/
structure Todo where
  name : String
  description : String
  is_completed : Bool
deriving Repr, DecidableEq

/-- Embedding of `TodoStore = HashMap<u64, Todo>` as an association list. -/
abbrev TodoStore := List (Nat × Todo)

/-- Embedding of `TodoOrder = Vec<u64>`. -/
abbrev TodoOrder := List Nat

/-- The three thread-locals `TODOSTATE`, `TODOORDER`, `ID` as one state. -/
structure StoreState where
  table : TodoStore
  order : TodoOrder
  id : Nat
deriving Repr, DecidableEq

/-- The initial state: empty map, empty vector, counter 0. -/
def initState : StoreState := { table := [], order := [], id := 0 }

/-- Mirror of `HashMap::get`: the value stored under key `k`, if any. -/
def storeGet (t : TodoStore) (k : Nat) : Option Todo :=
  match t with
  | [] => none
  | (k', v) :: rest => if k' = k then some v else storeGet rest k

/-- Mirror of `HashMap::insert`: overwrite the entry of `k` in place, or append a new one. -/
def storeInsert (t : TodoStore) (k : Nat) (v : Todo) : TodoStore :=
  match t with
  | [] => [(k, v)]
  | (k', v') :: rest => if k' = k then (k, v) :: rest else (k', v') :: storeInsert rest k v

/-- Mirror of `HashMap::remove`: delete the entry of `k` (no-op when absent). -/
def storeRemove (t : TodoStore) (k : Nat) : TodoStore :=
  match t with
  | [] => []
  | (k', v') :: rest => if k' = k then rest else (k', v') :: storeRemove rest k

/-- Mirror of `Iterator::position`: index of the first element satisfying `p`. -/
def position (p : Nat → Bool) : List Nat → Option Nat
  | [] => none
  | a :: rest => if p a then some 0 else (position p rest).map (· + 1)

/-- Mirror of `Vec::remove`: drop the element at index `pos` (callers stay in bounds). -/
def removeAt : List Nat → Nat → List Nat
  | [], _ => []
  | _ :: rest, 0 => rest
  | a :: rest, n + 1 => a :: removeAt rest n

/-- The constant `DEFAULT_PAGE_SIZE: usize = 10`. -/
def DEFAULT_PAGE_SIZE : Nat := 10

/-- Operation `create_todo`: allocate `ID`, advance it, insert the record, push the id. -/
def create_todo (s : StoreState) (name description : String) :
    StoreState × Except String Nat :=
  let next_id := s.id
  ({ table := storeInsert s.table next_id
        { name := name, description := description, is_completed := false },
     order := s.order ++ [next_id],
     id := s.id + 1 },
   Except.ok next_id)

/-- Operation `get_todo`: look the id up in `TODOSTATE`; the error is `Todo Invalid Id` when absent. -/
def get_todo (s : StoreState) (todo_id : Nat) : Except String Todo :=
  match storeGet s.table todo_id with
  | some todo => Except.ok todo
  | none => Except.error "Todo Invalid Id"

/-- Operation `get_todos`: paginate over `TODOORDER`.  `start_index` uses
`saturating_sub`, `end_index` is clamped to the vector length, and the slice
`order[start_index..end_index]` panics (here: `none`) when
`start_index > end_index`.  Ids missing from the map are silently skipped. -/
def get_todos (s : StoreState) (page : Nat) (page_size : Option Nat) :
    Option (List Todo) :=
  let page_size := page_size.getD DEFAULT_PAGE_SIZE
  let start_index := (page - 1) * page_size
  let end_index := Nat.min (start_index + page_size) s.order.length
  if start_index ≤ end_index then
    some (((s.order.take end_index).drop start_index).filterMap
      (fun id => storeGet s.table id))
  else
    none

/-- Operation `update_todo`: check membership in `TODOORDER`, then overwrite exactly the
fields passed as `Some` on the record held in `TODOSTATE`. -/
def update_todo (s : StoreState) (todo_id : Nat) (name description : Option String)
    (is_completed : Option Bool) : StoreState × Except String Bool :=
  if s.order.contains todo_id then
    match storeGet s.table todo_id with
    | some todo =>
      let todo := match name with
        | some new_name => { todo with name := new_name }
        | none => todo
      let todo := match description with
        | some new_description => { todo with description := new_description }
        | none => todo
      let todo := match is_completed with
        | some completed => { todo with is_completed := completed }
        | none => todo
      ({ s with table := storeInsert s.table todo_id todo }, Except.ok true)
    | none => (s, Except.error "Todo not found in the store")
  else
    (s, Except.error "Todo not found")

/-- The record produced by `update_todo`'s three conditional field writes:
each field passed as `some` is overwritten, each field passed as `none` keeps
its prior value. -/
def patchTodo (todo : Todo) (nm ds : Option String) (cp : Option Bool) : Todo :=
  ⟨nm.getD todo.name, ds.getD todo.description, cp.getD todo.is_completed⟩

/-- Operation `delete_todo`: remove from `TODOSTATE` first; if something was removed,
excise the id from `TODOORDER` (`Ok(true)`) or report the inconsistency as
`Ok(false)`; otherwise `Err("Todo not found")`. -/
def delete_todo (s : StoreState) (todo_id : Nat) : StoreState × Except String Bool :=
  let removed := storeGet s.table todo_id
  let s1 : StoreState := { s with table := storeRemove s.table todo_id }
  match removed with
  | some _ =>
    match position (fun id => id == todo_id) s1.order with
    | some pos => ({ s1 with order := removeAt s1.order pos }, Except.ok true)
    | none => (s1, Except.ok false)
  | none => (s1, Except.error "Todo not found")

/-- One state-mutating call of the canister interface. -/
inductive Op where
  | create (name description : String)
  | update (todo_id : Nat) (name description : Option String) (is_completed : Option Bool)
  | delete (todo_id : Nat)

/-- The state after one call (results discarded). -/
def applyOp (s : StoreState) : Op → StoreState
  | Op.create n d => (create_todo s n d).1
  | Op.update i nm ds cp => (update_todo s i nm ds cp).1
  | Op.delete i => (delete_todo s i).1

/-- The state after a sequence of calls, starting from the fresh store. -/
def runOps (ops : List Op) : StoreState := ops.foldl applyOp initState

/-- One call, also recording the id returned by a successful `create_todo`. -/
def stepTrace (acc : StoreState × List Nat) (op : Op) : StoreState × List Nat :=
  match op with
  | Op.create n d =>
    match create_todo acc.1 n d with
    | (s', Except.ok i) => (s', acc.2 ++ [i])
    | (s', Except.error _) => (s', acc.2)
  | Op.update i nm ds cp => ((update_todo acc.1 i nm ds cp).1, acc.2)
  | Op.delete i => ((delete_todo acc.1 i).1, acc.2)

/-- Final state and the list of ids returned by the creates, in call order. -/
def runTrace (ops : List Op) : StoreState × List Nat :=
  ops.foldl stepTrace (initState, [])

/-- The ids returned by the successful creates of a run, in call order. -/
def createdIds (ops : List Op) : List Nat := (runTrace ops).2

/-- How many `create` calls a sequence contains. -/
def numCreates : List Op → Nat
  | [] => 0
  | Op.create _ _ :: rest => numCreates rest + 1
  | _ :: rest => numCreates rest

/-- Does this call mutate (update or delete) the record with id `i`? -/
def touches (i : Nat) : Op → Bool
  | Op.create _ _ => false
  | Op.update j _ _ _ => j == i
  | Op.delete j => j == i

/-- Well-formedness carried by every reachable state. -/
structure StoreInv (s : StoreState) : Prop where
  keys_nodup : (s.table.map Prod.fst).Nodup
  order_nodup : s.order.Nodup
  mem_iff : ∀ j, j ∈ s.order ↔ (storeGet s.table j).isSome
  lt_id : ∀ j ∈ s.order, j < s.id

/-! ### Association-list lemmas for the `HashMap` embedding -/

theorem storeGet_insert_self (t : TodoStore) (k : Nat) (v : Todo) :
    storeGet (storeInsert t k v) k = some v := by
  induction t with
  | nil => simp [storeInsert, storeGet]
  | cons p rest ih =>
    obtain ⟨k', v'⟩ := p
    by_cases h : k' = k <;> simp [storeInsert, storeGet, h, ih]

theorem storeGet_insert_ne (t : TodoStore) (k j : Nat) (v : Todo) (h : k ≠ j) :
    storeGet (storeInsert t k v) j = storeGet t j := by
  induction t with
  | nil => simp [storeInsert, storeGet, h]
  | cons p rest ih =>
    obtain ⟨k', v'⟩ := p
    by_cases hk : k' = k
    · subst hk
      simp [storeInsert, storeGet, h, ih]
    · simp only [storeInsert, if_neg hk]
      by_cases hj : k' = j <;> simp [storeGet, hj, ih]

theorem storeGet_remove_ne (t : TodoStore) (k j : Nat) (h : k ≠ j) :
    storeGet (storeRemove t k) j = storeGet t j := by
  induction t with
  | nil => simp [storeRemove]
  | cons p rest ih =>
    obtain ⟨k', v'⟩ := p
    by_cases hk : k' = k
    · subst hk
      simp [storeRemove, storeGet, h, ih]
    · simp only [storeRemove, if_neg hk]
      by_cases hj : k' = j <;> simp [storeGet, hj, ih]

theorem storeGet_eq_none_iff (t : TodoStore) (j : Nat) :
    storeGet t j = none ↔ j ∉ t.map Prod.fst := by
  induction t with
  | nil => simp [storeGet]
  | cons p rest ih =>
    obtain ⟨k', v'⟩ := p
    rw [List.map_cons, List.mem_cons, not_or]
    by_cases h : k' = j
    · subst h
      simp [storeGet]
    · have h' : ¬ j = k' := fun hj => h hj.symm
      simp [storeGet, h, h', ih]

theorem storeGet_isSome_iff (t : TodoStore) (j : Nat) :
    (storeGet t j).isSome ↔ j ∈ t.map Prod.fst := by
  rw [← not_iff_not, Option.not_isSome_iff_eq_none, storeGet_eq_none_iff]

theorem keys_insert_of_none (t : TodoStore) (k : Nat) (v : Todo)
    (h : storeGet t k = none) :
    (storeInsert t k v).map Prod.fst = t.map Prod.fst ++ [k] := by
  induction t with
  | nil => simp [storeInsert]
  | cons p rest ih =>
    obtain ⟨k', v'⟩ := p
    by_cases hk : k' = k
    · simp [storeGet, hk] at h
    · simp [storeGet, hk] at h
      simp [storeInsert, hk, ih h]

theorem keys_insert_of_some (t : TodoStore) (k : Nat) (v w : Todo)
    (h : storeGet t k = some w) :
    (storeInsert t k v).map Prod.fst = t.map Prod.fst := by
  induction t with
  | nil => simp [storeGet] at h
  | cons p rest ih =>
    obtain ⟨k', v'⟩ := p
    by_cases hk : k' = k
    · simp [storeInsert, hk]
    · simp [storeGet, hk] at h
      simp [storeInsert, hk, ih h]

theorem keys_remove (t : TodoStore) (k : Nat) :
    (storeRemove t k).map Prod.fst = (t.map Prod.fst).erase k := by
  induction t with
  | nil => simp [storeRemove]
  | cons p rest ih =>
    obtain ⟨k', v'⟩ := p
    by_cases hk : k' = k
    · simp [storeRemove, hk, List.erase_cons]
    · simp [storeRemove, hk, List.erase_cons, ih]

theorem storeGet_remove_self (t : TodoStore) (k : Nat)
    (h : (t.map Prod.fst).Nodup) :
    storeGet (storeRemove t k) k = none := by
  rw [storeGet_eq_none_iff, keys_remove]
  exact h.not_mem_erase

theorem storeInsert_get_some_self (t : TodoStore) (k : Nat) (v : Todo)
    (h : storeGet t k = some v) : storeInsert t k v = t := by
  induction t with
  | nil => simp [storeGet] at h
  | cons p rest ih =>
    obtain ⟨k', v'⟩ := p
    by_cases hk : k' = k
    · subst hk
      simp [storeGet] at h
      simp [storeInsert, h]
    · simp [storeGet, hk] at h
      simp [storeInsert, hk, ih h]

theorem storeRemove_get_none (t : TodoStore) (k : Nat)
    (h : storeGet t k = none) : storeRemove t k = t := by
  induction t with
  | nil => simp [storeRemove]
  | cons p rest ih =>
    obtain ⟨k', v'⟩ := p
    by_cases hk : k' = k
    · simp [storeGet, hk] at h
    · simp [storeGet, hk] at h
      simp [storeRemove, hk, ih h]

/-! ### `position` / `removeAt` lemmas for the order vector -/

theorem position_eq_none_iff (l : List Nat) (i : Nat) :
    position (fun id => id == i) l = none ↔ i ∉ l := by
  induction l with
  | nil => simp [position]
  | cons a rest ih =>
    by_cases h : a = i
    · subst h
      simp [position]
    · have h2 : ¬ i = a := fun hj => h hj.symm
      simp [position, h, h2, Option.map_eq_none', ih]

theorem removeAt_position_eq_erase (l : List Nat) (i pos : Nat)
    (h : position (fun id => id == i) l = some pos) :
    removeAt l pos = l.erase i := by
  induction l generalizing pos with
  | nil => simp [position] at h
  | cons a rest ih =>
    by_cases ha : a = i
    · simp [position, ha] at h
      subst ha h
      simp [removeAt, List.erase_cons]
    · simp [position, ha] at h
      obtain ⟨p, hp, rfl⟩ := h
      simp [removeAt, List.erase_cons, ha, ih p hp]

/-! ### Shape lemmas for the three mutating operations -/

theorem nodup_append_singleton {l : List Nat} {a : Nat}
    (h : l.Nodup) (ha : a ∉ l) : (l ++ [a]).Nodup := by
  simp [List.nodup_append, h, ha]

theorem update_fst_of_not_contains (s : StoreState) (i : Nat)
    (nm ds : Option String) (cp : Option Bool)
    (h : s.order.contains i = false) : (update_todo s i nm ds cp).1 = s := by
  have h' : i ∉ s.order := by simpa using h
  simp [update_todo, h']

theorem update_fst_of_get_none (s : StoreState) (i : Nat)
    (nm ds : Option String) (cp : Option Bool)
    (h : storeGet s.table i = none) : (update_todo s i nm ds cp).1 = s := by
  unfold update_todo
  split
  · simp [h]
  · rfl

theorem update_of_get_some (s : StoreState) (i : Nat)
    (nm ds : Option String) (cp : Option Bool) (todo : Todo)
    (hc : s.order.contains i = true) (hg : storeGet s.table i = some todo) :
    update_todo s i nm ds cp =
      ({ s with table := storeInsert s.table i (patchTodo todo nm ds cp) },
       Except.ok true) := by
  have hc' : i ∈ s.order := by simpa using hc
  cases nm <;> cases ds <;> cases cp <;>
    simp [update_todo, patchTodo, hc', hg, Option.getD]

theorem update_snd_of_not_contains (s : StoreState) (i : Nat)
    (nm ds : Option String) (cp : Option Bool)
    (h : s.order.contains i = false) :
    (update_todo s i nm ds cp).2 = Except.error "Todo not found" := by
  have h' : i ∉ s.order := by simpa using h
  simp [update_todo, h']

theorem update_fst_order (s : StoreState) (i : Nat)
    (nm ds : Option String) (cp : Option Bool) :
    (update_todo s i nm ds cp).1.order = s.order := by
  unfold update_todo
  split
  · split <;> rfl
  · rfl

theorem update_fst_id (s : StoreState) (i : Nat)
    (nm ds : Option String) (cp : Option Bool) :
    (update_todo s i nm ds cp).1.id = s.id := by
  unfold update_todo
  split
  · split <;> rfl
  · rfl

theorem delete_of_get_none (s : StoreState) (i : Nat)
    (hg : storeGet s.table i = none) :
    delete_todo s i = (s, Except.error "Todo not found") := by
  simp [delete_todo, hg, storeRemove_get_none _ _ hg]

theorem delete_of_position_some (s : StoreState) (i pos : Nat) (v : Todo)
    (hg : storeGet s.table i = some v)
    (hp : position (fun id => id == i) s.order = some pos) :
    delete_todo s i =
      ({ table := storeRemove s.table i, order := removeAt s.order pos, id := s.id },
       Except.ok true) := by
  simp [delete_todo, hg, hp]

theorem delete_of_position_none (s : StoreState) (i : Nat) (v : Todo)
    (hg : storeGet s.table i = some v)
    (hp : position (fun id => id == i) s.order = none) :
    delete_todo s i =
      ({ s with table := storeRemove s.table i }, Except.ok false) := by
  simp [delete_todo, hg, hp]

theorem delete_fst_id (s : StoreState) (i : Nat) : (delete_todo s i).1.id = s.id := by
  cases hg : storeGet s.table i with
  | none => rw [delete_of_get_none _ _ hg]
  | some v =>
    cases hp : position (fun id => id == i) s.order with
    | none => rw [delete_of_position_none _ _ v hg hp]
    | some pos => rw [delete_of_position_some _ _ pos v hg hp]

/-! ### The reachable-state invariant -/

theorem inv_create (s : StoreState) (n d : String) (h : StoreInv s) :
    StoreInv (create_todo s n d).1 := by
  have hnone : storeGet s.table s.id = none := by
    cases hg : storeGet s.table s.id with
    | none => rfl
    | some v =>
      exact absurd (h.lt_id _ ((h.mem_iff s.id).2 (by simp [hg]))) (lt_irrefl _)
  have hnotin : s.id ∉ s.order := fun hmem => by
    have := (h.mem_iff s.id).1 hmem
    simp [hnone] at this
  refine ⟨?_, ?_, ?_, ?_⟩
  · rw [show (create_todo s n d).1.table = storeInsert s.table s.id
        { name := n, description := d, is_completed := false } from rfl,
      keys_insert_of_none _ _ _ hnone]
    exact nodup_append_singleton h.keys_nodup ((storeGet_eq_none_iff _ _).1 hnone)
  · exact nodup_append_singleton h.order_nodup hnotin
  · intro j
    show j ∈ s.order ++ [s.id] ↔ (storeGet (storeInsert s.table s.id _) j).isSome
    by_cases hj : j = s.id
    · subst hj
      simp [storeGet_insert_self]
    · rw [storeGet_insert_ne _ _ _ _ (fun e => hj e.symm)]
      simpa [hj] using h.mem_iff j
  · intro j hj
    show j < s.id + 1
    rcases List.mem_append.1 hj with hj | hj
    · exact Nat.lt_succ_of_lt (h.lt_id j hj)
    · simp at hj
      omega

theorem inv_update (s : StoreState) (i : Nat) (nm ds : Option String)
    (cp : Option Bool) (h : StoreInv s) : StoreInv (update_todo s i nm ds cp).1 := by
  by_cases hc : s.order.contains i = true
  · cases hg : storeGet s.table i with
    | none => rwa [update_fst_of_get_none _ _ _ _ _ hg]
    | some todo =>
      have h1 : (update_todo s i nm ds cp).1 =
          { s with table := storeInsert s.table i (patchTodo todo nm ds cp) } := by
        rw [update_of_get_some s i nm ds cp todo hc hg]
      rw [h1]
      refine ⟨?_, h.order_nodup, ?_, h.lt_id⟩
      · show (List.map Prod.fst (storeInsert s.table i _)).Nodup
        rw [keys_insert_of_some _ _ _ _ hg]
        exact h.keys_nodup
      · intro j
        show j ∈ s.order ↔ (storeGet (storeInsert s.table i _) j).isSome
        by_cases hj : j = i
        · subst hj
          have hc' : j ∈ s.order := by simpa using hc
          simp [storeGet_insert_self, hc']
        · rw [storeGet_insert_ne _ _ _ _ (fun e => hj e.symm)]
          exact h.mem_iff j
  · rwa [update_fst_of_not_contains _ _ _ _ _ (by simpa using hc)]

theorem inv_delete (s : StoreState) (i : Nat) (h : StoreInv s) :
    StoreInv (delete_todo s i).1 := by
  cases hg : storeGet s.table i with
  | none => rw [delete_of_get_none _ _ hg]; exact h
  | some v =>
    have hmem : i ∈ s.order := (h.mem_iff i).2 (by simp [hg])
    have hpos : position (fun id => id == i) s.order ≠ none := by
      rw [Ne, position_eq_none_iff]
      exact fun hn => hn hmem
    cases hp : position (fun id => id == i) s.order with
    | none => exact absurd hp hpos
    | some pos =>
      have h1 : (delete_todo s i).1 =
          ⟨storeRemove s.table i, s.order.erase i, s.id⟩ := by
        rw [delete_of_position_some s i pos v hg hp]
        simp [removeAt_position_eq_erase _ _ _ hp]
      rw [h1]
      refine ⟨?_, h.order_nodup.erase i, ?_, ?_⟩
      · show (List.map Prod.fst (storeRemove s.table i)).Nodup
        rw [keys_remove]
        exact h.keys_nodup.erase i
      · intro j
        show j ∈ s.order.erase i ↔ (storeGet (storeRemove s.table i) j).isSome
        by_cases hj : j = i
        · subst hj
          simp [h.order_nodup.not_mem_erase, storeGet_remove_self _ _ h.keys_nodup]
        · rw [storeGet_remove_ne _ _ _ (fun e => hj e.symm),
            h.order_nodup.mem_erase_iff]
          simpa [hj] using h.mem_iff j
      · intro j hj
        exact h.lt_id j (List.erase_subset _ _ hj)

theorem inv_applyOp (s : StoreState) (op : Op) (h : StoreInv s) :
    StoreInv (applyOp s op) := by
  cases op with
  | create n d => exact inv_create s n d h
  | update i nm ds cp => exact inv_update s i nm ds cp h
  | delete i => exact inv_delete s i h

theorem inv_foldl : ∀ (ops : List Op) (s : StoreState),
    StoreInv s → StoreInv (List.foldl applyOp s ops)
  | [], _, h => h
  | op :: rest, s, h => inv_foldl rest _ (inv_applyOp s op h)

theorem inv_initState : StoreInv initState :=
  ⟨by simp [initState], by simp [initState],
   by intro j; simp [initState, storeGet],
   by intro j hj; simp [initState] at hj⟩

theorem inv_runOps (ops : List Op) : StoreInv (runOps ops) :=
  inv_foldl ops initState inv_initState

/-! ### The id trace of a run -/

theorem stepTrace_fst (acc : StoreState × List Nat) (op : Op) :
    (stepTrace acc op).1 = applyOp acc.1 op := by
  cases op <;> rfl

theorem map_ext_on : ∀ (l : List Nat) (f g : Nat → Nat),
    (∀ x ∈ l, f x = g x) → l.map f = l.map g
  | [], _, _, _ => rfl
  | x :: rest, f, g, h => by
    rw [List.map_cons, List.map_cons, h x (by simp),
      map_ext_on rest f g (fun y hy => h y (by simp [hy]))]

theorem map_add_range_succ (a n : Nat) :
    (List.range (n + 1)).map (a + ·) = a :: (List.range n).map ((a + 1) + ·) := by
  rw [List.range_succ_eq_map, List.map_cons, List.map_map]
  refine congrArg₂ _ (by omega) ?_
  refine map_ext_on _ _ _ ?_
  intro k _
  simp [Function.comp]
  omega

theorem foldl_stepTrace_trace : ∀ (ops : List Op) (s : StoreState) (ids : List Nat),
    (List.foldl stepTrace (s, ids) ops).2 =
      ids ++ (List.range (numCreates ops)).map (s.id + ·)
  | [], s, ids => by simp [numCreates]
  | Op.create n d :: rest, s, ids => by
    have hstep : stepTrace (s, ids) (Op.create n d) =
        ((create_todo s n d).1, ids ++ [s.id]) := rfl
    rw [List.foldl_cons, hstep, foldl_stepTrace_trace rest _ _]
    show (ids ++ [s.id]) ++ (List.range (numCreates rest)).map ((s.id + 1) + ·) =
      ids ++ (List.range (numCreates rest + 1)).map (s.id + ·)
    rw [map_add_range_succ, List.append_assoc, List.singleton_append]
  | Op.update i nm ds cp :: rest, s, ids => by
    have hstep : stepTrace (s, ids) (Op.update i nm ds cp) =
        ((update_todo s i nm ds cp).1, ids) := rfl
    rw [List.foldl_cons, hstep, foldl_stepTrace_trace rest _ _, update_fst_id]
    rfl
  | Op.delete i :: rest, s, ids => by
    have hstep : stepTrace (s, ids) (Op.delete i) =
        ((delete_todo s i).1, ids) := rfl
    rw [List.foldl_cons, hstep, foldl_stepTrace_trace rest _ _, delete_fst_id]
    rfl

theorem created_ids_eq (ops : List Op) :
    createdIds ops = List.range (numCreates ops) := by
  have h := foldl_stepTrace_trace ops initState []
  simpa [createdIds, runTrace, initState] using h

theorem id_foldl : ∀ (ops : List Op) (s : StoreState),
    (List.foldl applyOp s ops).id = s.id + numCreates ops
  | [], s => by simp [numCreates]
  | Op.create n d :: rest, s => by
    rw [List.foldl_cons, id_foldl rest _]
    show (create_todo s n d).1.id + numCreates rest = s.id + (numCreates rest + 1)
    show s.id + 1 + numCreates rest = s.id + (numCreates rest + 1)
    omega
  | Op.update i nm ds cp :: rest, s => by
    rw [List.foldl_cons, id_foldl rest _]
    show (update_todo s i nm ds cp).1.id + numCreates rest = s.id + numCreates rest
    rw [update_fst_id]
  | Op.delete i :: rest, s => by
    rw [List.foldl_cons, id_foldl rest _]
    show (delete_todo s i).1.id + numCreates rest = s.id + numCreates rest
    rw [delete_fst_id]

theorem id_runOps (ops : List Op) : (runOps ops).id = numCreates ops := by
  have h := id_foldl ops initState
  simpa [runOps, initState] using h

/-! ### Preservation of a record under operations that do not touch it -/

theorem get_preserved : ∀ (ops : List Op) (s : StoreState) (i : Nat) (v : Todo),
    i < s.id → storeGet s.table i = some v →
    (∀ op ∈ ops, touches i op = false) →
    storeGet (List.foldl applyOp s ops).table i = some v ∧
      i < (List.foldl applyOp s ops).id
  | [], _, _, _, hlt, hget, _ => ⟨hget, hlt⟩
  | op :: rest, s, i, v, hlt, hget, htouch => by
    rw [List.foldl_cons]
    have hrest : ∀ o ∈ rest, touches i o = false :=
      fun o ho => htouch o (by simp [ho])
    have hthis := htouch op (by simp)
    cases op with
    | create n d =>
      refine get_preserved rest _ i v ?_ ?_ hrest
      · show i < s.id + 1
        omega
      · show storeGet (storeInsert s.table s.id _) i = some v
        rw [storeGet_insert_ne _ _ _ _ (by omega)]
        exact hget
    | update j nm ds cp =>
      have hji : j ≠ i := by simpa [touches] using hthis
      refine get_preserved rest _ i v ?_ ?_ hrest
      · rw [show applyOp s (Op.update j nm ds cp) = (update_todo s j nm ds cp).1 from rfl,
          update_fst_id]
        exact hlt
      · by_cases hc : s.order.contains j = true
        · cases hg : storeGet s.table j with
          | none =>
            rw [show applyOp s (Op.update j nm ds cp) = (update_todo s j nm ds cp).1 from rfl,
              update_fst_of_get_none _ _ _ _ _ hg]
            exact hget
          | some todo =>
            have h1 : (update_todo s j nm ds cp).1 =
                { s with table := storeInsert s.table j (patchTodo todo nm ds cp) } := by
              rw [update_of_get_some s j nm ds cp todo hc hg]
            rw [show applyOp s (Op.update j nm ds cp) = (update_todo s j nm ds cp).1 from rfl,
              h1]
            show storeGet (storeInsert s.table j (patchTodo todo nm ds cp)) i = some v
            rw [storeGet_insert_ne _ _ _ _ hji]
            exact hget
        · rw [show applyOp s (Op.update j nm ds cp) = (update_todo s j nm ds cp).1 from rfl,
            update_fst_of_not_contains _ _ _ _ _ (by simpa using hc)]
          exact hget
    | delete j =>
      have hji : j ≠ i := by simpa [touches] using hthis
      refine get_preserved rest _ i v ?_ ?_ hrest
      · rw [show applyOp s (Op.delete j) = (delete_todo s j).1 from rfl, delete_fst_id]
        exact hlt
      · cases hg : storeGet s.table j with
        | none =>
          rw [show applyOp s (Op.delete j) = (delete_todo s j).1 from rfl,
            delete_of_get_none _ _ hg]
          exact hget
        | some w =>
          cases hp : position (fun id => id == j) s.order with
          | none =>
            have h1 : (delete_todo s j).1 = { s with table := storeRemove s.table j } := by
              rw [delete_of_position_none _ _ w hg hp]
            rw [show applyOp s (Op.delete j) = (delete_todo s j).1 from rfl, h1]
            show storeGet (storeRemove s.table j) i = some v
            rw [storeGet_remove_ne _ _ _ hji]
            exact hget
          | some pos =>
            have h1 : (delete_todo s j).1 =
                ⟨storeRemove s.table j, removeAt s.order pos, s.id⟩ := by
              rw [delete_of_position_some _ _ pos w hg hp]
            rw [show applyOp s (Op.delete j) = (delete_todo s j).1 from rfl, h1]
            show storeGet (storeRemove s.table j) i = some v
            rw [storeGet_remove_ne _ _ _ hji]
            exact hget

/-- Claim C1: REFUTED as stated — `list` is not total.  With the store empty
(`order` length 0) and `page = 2`, `page_size = Some 10`, the computed
`start_index` is 10 and `end_index` is 0, so the slice `order[10..0]` panics
(modelled as `none`) instead of returning an empty sequence. -/
theorem list_panics_when_start_exceeds_length :
    get_todos initState 2 (some 10) = none := rfl

/-- Claim C9: pagination edge arithmetic.  `page = 0` and `page = 1` produce
identical results for every page size (including the default), `page_size = 0`
yields an empty page for every page, and an unspecified page size behaves as
the default 10. -/
theorem pagination_edges :
    (∀ (s : StoreState) (ps : Option Nat), get_todos s 0 ps = get_todos s 1 ps) ∧
    (∀ (s : StoreState) (page : Nat), get_todos s page (some 0) = some []) ∧
    (∀ (s : StoreState) (page : Nat), get_todos s page none = get_todos s page (some DEFAULT_PAGE_SIZE)) ∧
    DEFAULT_PAGE_SIZE = 10 := by
  refine ⟨fun s ps => rfl, fun s page => ?_, fun s page => rfl, rfl⟩
  simp [get_todos]

/-- Claim C2: after any sequence of create, update and delete calls starting
from the empty store, the set of ids in `order` equals the set of keys of
`table`, and `order` contains no duplicate ids. -/
theorem store_order_consistency (ops : List Op) :
    (∀ j, j ∈ (runOps ops).order ↔ (storeGet (runOps ops).table j).isSome) ∧
    (runOps ops).order.Nodup :=
  ⟨(inv_runOps ops).mem_iff, (inv_runOps ops).order_nodup⟩

/-- Claim C3: along any sequence of operations from the fresh store, the ids
returned by the successive (always successful) creates are exactly
`0, 1, 2, ...` — strictly increasing, gap-free regardless of interleaved
updates and deletes, and never repeated, not even after a delete. -/
theorem created_ids_are_range (ops : List Op) :
    createdIds ops = List.range (numCreates ops) ∧
    List.Pairwise (· < ·) (createdIds ops) := by
  refine ⟨created_ids_eq ops, ?_⟩
  rw [created_ids_eq ops]
  exact List.pairwise_lt_range _

/-- Claim C4: `create_todo s n d` returns id `s.id`, an immediate `get_todo`
of that id yields `{name := n, description := d, is_completed := false}`, and
the same record is still returned after any further operations none of which
updates or deletes that id. -/
theorem create_get_roundtrip (s : StoreState) (n d : String) :
    (create_todo s n d).2 = Except.ok s.id ∧
    get_todo (create_todo s n d).1 s.id = Except.ok ⟨n, d, false⟩ ∧
    (∀ ops : List Op, (∀ op ∈ ops, touches s.id op = false) →
      get_todo (List.foldl applyOp (create_todo s n d).1 ops) s.id =
        Except.ok ⟨n, d, false⟩) := by
  have hself : storeGet (create_todo s n d).1.table s.id = some ⟨n, d, false⟩ :=
    storeGet_insert_self s.table s.id _
  refine ⟨rfl, by simp [get_todo, hself], ?_⟩
  intro ops htouch
  have h := get_preserved ops (create_todo s n d).1 s.id ⟨n, d, false⟩
    (by show s.id < s.id + 1; omega) hself htouch
  simp [get_todo, h.1]

/-- Witness for C4 at a concrete input: create "a"/"b" in the fresh store,
then run one unrelated create; `get_todo 0` still returns the record. -/
theorem create_get_roundtrip_witness :
    get_todo (List.foldl applyOp (create_todo initState "a" "b").1
      [Op.create "c" "d"]) 0 = Except.ok ⟨"a", "b", false⟩ :=
  (create_get_roundtrip initState "a" "b").2.2 [Op.create "c" "d"] (by decide)

/-- Claim C5: when id `i` exists (present in `order` and in `table`),
`update_todo` succeeds with `true`, overwrites exactly the fields passed as
`some` (each `none` field keeps its prior value), leaves every other record
untouched, and changes neither `order` nor the counter. -/
theorem update_frame (s : StoreState) (i : Nat) (nm ds : Option String)
    (cp : Option Bool) (todo : Todo)
    (hc : s.order.contains i = true) (hg : storeGet s.table i = some todo) :
    (update_todo s i nm ds cp).2 = Except.ok true ∧
    storeGet (update_todo s i nm ds cp).1.table i =
      some ⟨nm.getD todo.name, ds.getD todo.description, cp.getD todo.is_completed⟩ ∧
    (∀ j, j ≠ i → storeGet (update_todo s i nm ds cp).1.table j = storeGet s.table j) ∧
    (update_todo s i nm ds cp).1.order = s.order ∧
    (update_todo s i nm ds cp).1.id = s.id := by
  have h1 := update_of_get_some s i nm ds cp todo hc hg
  have h2 : (update_todo s i nm ds cp).1 =
      { s with table := storeInsert s.table i (patchTodo todo nm ds cp) } := by
    rw [h1]
  refine ⟨?_, ?_, ?_, update_fst_order s i nm ds cp, update_fst_id s i nm ds cp⟩
  · rw [show (update_todo s i nm ds cp).2 = _ from congrArg Prod.snd h1]
  · rw [h2]
    show storeGet (storeInsert s.table i (patchTodo todo nm ds cp)) i = _
    rw [storeGet_insert_self]
    rfl
  · intro j hj
    rw [h2]
    show storeGet (storeInsert s.table i (patchTodo todo nm ds cp)) j = storeGet s.table j
    exact storeGet_insert_ne _ _ _ _ (Ne.symm hj)

/-- Witness for C5 at a concrete input: update only the name of record 0. -/
theorem update_frame_witness :
    (update_todo (create_todo initState "a" "b").1 0 (some "x") none none).2 =
      Except.ok true ∧
    storeGet (update_todo (create_todo initState "a" "b").1 0
      (some "x") none none).1.table 0 = some ⟨"x", "b", false⟩ :=
  ⟨(update_frame (create_todo initState "a" "b").1 0 (some "x") none none
      ⟨"a", "b", false⟩ rfl rfl).1,
   (update_frame (create_todo initState "a" "b").1 0 (some "x") none none
      ⟨"a", "b", false⟩ rfl rfl).2.1⟩

/-- Claim C6: `delete_todo` fails with the NotFound error exactly when the id
is absent from `table`; when present and also in `order` it removes the id
from both structures and returns `true`; when present in `table` but missing
from `order` it returns the soft success flag `false` instead of an error. -/
theorem delete_semantics (s : StoreState) (i : Nat)
    (hkeys : (s.table.map Prod.fst).Nodup) :
    ((delete_todo s i).2 = Except.error "Todo not found" ↔
      storeGet s.table i = none) ∧
    (∀ v, storeGet s.table i = some v → i ∈ s.order →
      delete_todo s i =
        (⟨storeRemove s.table i, s.order.erase i, s.id⟩, Except.ok true) ∧
      storeGet (delete_todo s i).1.table i = none) ∧
    (∀ v, storeGet s.table i = some v → i ∉ s.order →
      (delete_todo s i).2 = Except.ok false) := by
  refine ⟨?_, ?_, ?_⟩
  · cases hg : storeGet s.table i with
    | none => simp [delete_of_get_none _ _ hg]
    | some v =>
      constructor
      · intro he
        exfalso
        cases hp : position (fun id => id == i) s.order with
        | none =>
          rw [delete_of_position_none _ _ v hg hp] at he
          simp at he
        | some pos =>
          rw [delete_of_position_some _ _ pos v hg hp] at he
          simp at he
      · intro hn
        simp [hg] at hn
  · intro v hg hmem
    have hpos : position (fun id => id == i) s.order ≠ none := by
      rw [Ne, position_eq_none_iff]
      exact fun hn => hn hmem
    cases hp : position (fun id => id == i) s.order with
    | none => exact absurd hp hpos
    | some pos =>
      have heq : delete_todo s i =
          (⟨storeRemove s.table i, s.order.erase i, s.id⟩, Except.ok true) := by
        rw [delete_of_position_some s i pos v hg hp]
        simp [removeAt_position_eq_erase _ _ _ hp]
      refine ⟨heq, ?_⟩
      rw [heq]
      show storeGet (storeRemove s.table i) i = none
      exact storeGet_remove_self _ _ hkeys
  · intro v hg hnmem
    have hp : position (fun id => id == i) s.order = none :=
      (position_eq_none_iff _ _).2 hnmem
    rw [delete_of_position_none _ _ v hg hp]

/-- Witness for C6 at a concrete input: delete the only record of the store;
it disappears from the table. -/
theorem delete_semantics_witness :
    storeGet (delete_todo (create_todo initState "a" "b").1 0).1.table 0 = none :=
  ((delete_semantics (create_todo initState "a" "b").1 0 (by decide)).2.1
    ⟨"a", "b", false⟩ rfl (by decide)).2

/-- Claim C7: on any reachable state, an id absent from `table` (in
particular any never-issued id `i ≥ numCreates`) makes `get_todo`,
`update_todo` and `delete_todo` fail with their NotFound errors; moreover
`update_todo`'s existence check is against `order` (on any state at all, an
id missing from `order` is rejected regardless of `table`). -/
theorem missing_id_errors (ops : List Op) (i : Nat) :
    (storeGet (runOps ops).table i = none →
      get_todo (runOps ops) i = Except.error "Todo Invalid Id" ∧
      (∀ nm ds cp, (update_todo (runOps ops) i nm ds cp).2 =
        Except.error "Todo not found") ∧
      (delete_todo (runOps ops) i).2 = Except.error "Todo not found") ∧
    (numCreates ops ≤ i → storeGet (runOps ops).table i = none) ∧
    (∀ (s : StoreState) (nm ds : Option String) (cp : Option Bool),
      s.order.contains i = false →
      (update_todo s i nm ds cp).2 = Except.error "Todo not found") := by
  refine ⟨?_, ?_, fun s nm ds cp h => update_snd_of_not_contains s i nm ds cp h⟩
  · intro hnone
    have hnotin : i ∉ (runOps ops).order := fun hmem => by
      have := ((inv_runOps ops).mem_iff i).1 hmem
      simp [hnone] at this
    refine ⟨by simp [get_todo, hnone], fun nm ds cp => ?_, ?_⟩
    · exact update_snd_of_not_contains _ _ _ _ _ (by simpa using hnotin)
    · rw [delete_of_get_none _ _ hnone]
  · intro hle
    cases hg : storeGet (runOps ops).table i with
    | none => rfl
    | some v =>
      have hmem := ((inv_runOps ops).mem_iff i).2 (by simp [hg])
      have hlt := (inv_runOps ops).lt_id i hmem
      rw [id_runOps] at hlt
      omega

/-- Witness for C7 at a concrete input: on the fresh store, id 0 was never
issued and all three operations reject it. -/
theorem missing_id_errors_witness :
    get_todo (runOps []) 0 = Except.error "Todo Invalid Id" ∧
    (delete_todo (runOps []) 0).2 = Except.error "Todo not found" ∧
    (update_todo initState 0 none none none).2 = Except.error "Todo not found" :=
  ⟨((missing_id_errors [] 0).1 rfl).1,
   ((missing_id_errors [] 0).1 rfl).2.2,
   (missing_id_errors [] 0).2.2 initState none none none rfl⟩

/-- Claim C8: a successful `delete_todo s i` leaves `order` equal to the old
`order` with the single element `i` excised (relative order of the rest
unchanged), `i` is gone from `order`, `get_todo i` now fails with the
NotFound error, and every record on any subsequent `list` page is resolved
from an id of the new `order`, none of which is `i`. -/
theorem delete_order_stability (s : StoreState) (i : Nat)
    (hkeys : (s.table.map Prod.fst).Nodup) (hord : s.order.Nodup)
    (hdel : (delete_todo s i).2 = Except.ok true) :
    (delete_todo s i).1.order = s.order.erase i ∧
    i ∉ (delete_todo s i).1.order ∧
    get_todo (delete_todo s i).1 i = Except.error "Todo Invalid Id" ∧
    (∀ page ps l, get_todos (delete_todo s i).1 page ps = some l →
      ∀ t ∈ l, ∃ j ∈ (delete_todo s i).1.order, j ≠ i ∧
        storeGet (delete_todo s i).1.table j = some t) := by
  cases hg : storeGet s.table i with
  | none =>
    rw [delete_of_get_none _ _ hg] at hdel
    simp at hdel
  | some v =>
    cases hp : position (fun id => id == i) s.order with
    | none =>
      rw [delete_of_position_none _ _ v hg hp] at hdel
      simp at hdel
    | some pos =>
      have heq : (delete_todo s i).1 =
          ⟨storeRemove s.table i, s.order.erase i, s.id⟩ := by
        rw [delete_of_position_some s i pos v hg hp]
        simp [removeAt_position_eq_erase _ _ _ hp]
      have hgetnone : storeGet (delete_todo s i).1.table i = none := by
        rw [heq]
        exact storeGet_remove_self _ _ hkeys
      have hordeq : (delete_todo s i).1.order = s.order.erase i := by rw [heq]
      refine ⟨hordeq, ?_, by simp [get_todo, hgetnone], ?_⟩
      · rw [hordeq]
        exact hord.not_mem_erase
      · intro page ps l hl t ht
        simp only [get_todos] at hl
        split at hl
        · rw [Option.some_inj] at hl
          subst hl
          obtain ⟨j, hjmem, hjget⟩ := List.mem_filterMap.1 ht
          refine ⟨j, ?_, ?_, hjget⟩
          · exact List.take_subset _ _ (List.drop_subset _ _ hjmem)
          · intro hji
            subst hji
            rw [hjget] at hgetnone
            exact Option.noConfusion hgetnone
        · exact Option.noConfusion hl

/-- Witness for C8 at a concrete input: delete the only record; `order`
becomes empty and `get_todo 0` fails. -/
theorem delete_order_stability_witness :
    get_todo (delete_todo (create_todo initState "a" "b").1 0).1 0 =
      Except.error "Todo Invalid Id" :=
  (delete_order_stability (create_todo initState "a" "b").1 0
    (by decide) (by decide) rfl).2.2.1

/-- Claim C10: for an id present in the store, `update_todo` with all three
fields `none` returns `true` and leaves the whole state — the record, every
other record, `order`, and the counter — literally unchanged. -/
theorem noop_update_identity (s : StoreState) (i : Nat) (todo : Todo)
    (hc : s.order.contains i = true) (hg : storeGet s.table i = some todo) :
    update_todo s i none none none = (s, Except.ok true) := by
  have h1 := update_of_get_some s i none none none todo hc hg
  rw [h1, show patchTodo todo none none none = todo from rfl,
    storeInsert_get_some_self _ _ _ hg]

/-- Witness for C10 at a concrete input: the all-`none` update of record 0
returns the state unchanged. -/
theorem noop_update_identity_witness :
    update_todo (create_todo initState "a" "b").1 0 none none none =
      ((create_todo initState "a" "b").1, Except.ok true) :=
  noop_update_identity (create_todo initState "a" "b").1 0 ⟨"a", "b", false⟩ rfl rfl
